import Mathlib

/-!
Verification of the `digit` documentation scraper (src/digit.py).

This file shallowly embeds the pipeline of `digit.py`: URL normalization
(`normalize_url`, `same_scope`), path resolution (`slugify_path`), output
writing with diff-skip (`write_output`), robots policy loading
(`load_robots` over CPython's `urllib.robotparser` semantics), the
fenced-code handling of `extract_main_content`, the frontier crawler
(`crawl_with_frontier` as a fuelled state machine over an abstract
network environment), and the per-seed dispatch of `main`.  Theorems at
the end settle the specification's claims about these components.
-/

namespace Digit

/-! ## Character and string helpers (models of the Python builtins used) -/

/-- ASCII uppercase test. -/
def isUpperAscii (c : Char) : Bool := 65 ≤ c.toNat && c.toNat ≤ 90

/-- Lowercase one character; model of Python `str.lower` per character
    (ASCII; the netlocs this tool manipulates are ASCII). -/
def lowerChar (c : Char) : Char :=
  if isUpperAscii c then Char.ofNat (c.toNat + 32) else c

/-- Model of Python `str.lower`. -/
def strLower (s : String) : String := ⟨s.data.map lowerChar⟩

/-- Does the first list start with the second?  (Structural stand-in for
    the corresponding `String` primitive, kept kernel-reducible.) -/
def listStarts : List Char → List Char → Bool
  | _, [] => true
  | [], _ :: _ => false
  | c :: cs, d :: ds => c == d && listStarts cs ds

/-- Python `str.startswith`. -/
def pyStartsWith (s t : String) : Bool := listStarts s.data t.data

/-- Python `str.endswith`. -/
def pyEndsWith (s t : String) : Bool := listStarts s.data.reverse t.data.reverse

/-- Python `s[:-n]` (drop the last `n` characters). -/
def strDropRight (s : String) (n : Nat) : String :=
  ⟨s.data.take (s.data.length - n)⟩

/-- Python `s[n:]` (drop the first `n` characters). -/
def strDrop (s : String) (n : Nat) : String := ⟨s.data.drop n⟩

/-- One replacement step of Python `str.replace` (left to right,
    non-overlapping), fuelled so that it is structural; the fuel
    `length + 1` is never exhausted since every step consumes at least
    one character. -/
def replaceAllAux (patt repl : List Char) : Nat → List Char → List Char
  | 0, cs => cs
  | fuel + 1, cs =>
    match cs with
    | [] => []
    | c :: rest =>
      if listStarts cs patt then
        repl ++ replaceAllAux patt repl fuel (cs.drop patt.length)
      else c :: replaceAllAux patt repl fuel rest

/-- Python `str.replace` (all occurrences; callers never pass an empty
    pattern). -/
def pyReplace (s patt repl : String) : String :=
  if patt = "" then s
  else ⟨replaceAllAux patt.data repl.data (s.data.length + 1) s.data⟩

/-- `"\n".join(lines)`. -/
def joinNl : List String → String
  | [] => ""
  | [l] => l
  | l :: rest => l ++ "\n" ++ joinNl rest

def digitChar (n : Nat) : Char := Char.ofNat (48 + n % 10)

def natToStrAux : Nat → Nat → List Char
  | 0, _ => []
  | fuel + 1, n => if n < 10 then [digitChar n] else natToStrAux fuel (n / 10) ++ [digitChar (n % 10)]

/-- Decimal rendering of a natural number (for `int(time.time())` and the
    placeholder counter). -/
def natToStr (n : Nat) : String := ⟨natToStrAux (n + 1) n⟩

/-- Python `\s` on the characters occurring here (ASCII whitespace). -/
def isPySpace (c : Char) : Bool :=
  c == ' ' || c == '\t' || c == '\n' || c == '\x0b' || c == '\x0c' || c == '\r'

/-- Split a character list at the first occurrence of `d`:
    returns the part before and the part after, or `none` if absent. -/
def splitFirst (d : Char) : List Char → Option (List Char × List Char)
  | [] => none
  | c :: rest =>
    if c = d then some ([], rest)
    else
      match splitFirst d rest with
      | some (a, b) => some (c :: a, b)
      | none => none

theorem splitFirst_eq_some {d : Char} {cs a b : List Char}
    (h : splitFirst d cs = some (a, b)) : cs = a ++ d :: b ∧ d ∉ a := by
  induction cs generalizing a b with
  | nil => simp [splitFirst] at h
  | cons c rest ih =>
    simp only [splitFirst] at h
    by_cases hc : c = d
    · simp [hc] at h
      obtain ⟨ha, hb⟩ := h
      subst ha; subst hb; subst hc
      simp
    · simp only [if_neg hc] at h
      cases hrec : splitFirst d rest with
      | none => rw [hrec] at h; simp at h
      | some p =>
        obtain ⟨a0, b0⟩ := p
        rw [hrec] at h
        simp at h
        obtain ⟨ha, hb⟩ := h
        obtain ⟨h1, h2⟩ := ih hrec
        subst ha; subst hb
        constructor
        · simp [h1]
        · simp [List.mem_cons]
          exact ⟨fun hdc => hc hdc.symm, h2⟩

theorem splitFirst_eq_none {d : Char} {cs : List Char}
    (h : splitFirst d cs = none) : d ∉ cs := by
  induction cs with
  | nil => simp
  | cons c rest ih =>
    simp only [splitFirst] at h
    by_cases hc : c = d
    · simp [hc] at h
    · simp only [if_neg hc] at h
      cases hrec : splitFirst d rest with
      | none =>
        simp [List.mem_cons]
        exact ⟨fun hdc => hc hdc.symm, ih hrec⟩
      | some p => rw [hrec] at h; simp at h

/-! ## Model of `urllib.parse` (CPython) as used by digit.py

`urlparse`/`urlsplit`, `urlunparse`/`urlunsplit` restricted to the five
components digit.py manipulates (the `params` component is never split
off and rejoins identically, so it is omitted).  `urljoin` is kept
abstract in the crawler environment: every claim under verification is
insensitive to its internals. -/

structure ParsedUrl where
  scheme : String
  netloc : String
  path : String
  query : String
  fragment : String
deriving DecidableEq, Repr

/-- Characters allowed in a URL scheme (CPython `scheme_chars`). -/
def isSchemeChar (c : Char) : Bool :=
  c.isAlpha || c.isDigit || c == '+' || c == '-' || c == '.'

def isAsciiAlpha (c : Char) : Bool := c.isAlpha

/-- CPython `urlsplit` accepts `url[:i]` as a scheme iff it is nonempty,
    starts with an ASCII letter and consists of scheme characters. -/
def validScheme : List Char → Bool
  | [] => false
  | c :: rest => isAsciiAlpha c && (c :: rest).all isSchemeChar

def parseScheme (cs : List Char) : List Char × List Char :=
  match splitFirst ':' cs with
  | some (pre, post) => if validScheme pre then (pre.map lowerChar, post) else ([], cs)
  | none => ([], cs)

/-- A character that ends the netloc (CPython `_splitnetloc`). -/
def notNetlocDelim (c : Char) : Bool := !(c == '/' || c == '?' || c == '#')

def parseNetloc (cs : List Char) : List Char × List Char :=
  if cs.take 2 = ['/', '/'] then
    ((cs.drop 2).takeWhile notNetlocDelim, (cs.drop 2).dropWhile notNetlocDelim)
  else ([], cs)

def splitFragment (cs : List Char) : List Char × List Char :=
  match splitFirst '#' cs with
  | some (pre, post) => (pre, post)
  | none => (cs, [])

def splitQuery (cs : List Char) : List Char × List Char :=
  match splitFirst '?' cs with
  | some (pre, post) => (pre, post)
  | none => (cs, [])

/-- Model of CPython `urllib.parse.urlparse` (five components). -/
def urlparse (s : String) : ParsedUrl :=
  let p1 := parseScheme s.data
  let p2 := parseNetloc p1.2
  let p3 := splitFragment p2.2
  let p4 := splitQuery p3.1
  { scheme := ⟨p1.1⟩, netloc := ⟨p2.1⟩, path := ⟨p4.1⟩, query := ⟨p4.2⟩,
    fragment := ⟨p3.2⟩ }

/-- CPython `urlunsplit`, step 1: re-attach the netloc when present (or
    when the path itself starts with `//`), with a `/` forced between a
    netloc and a relative path. -/
def netlocPart (p : ParsedUrl) : String :=
  if p.netloc ≠ "" ∨ pyStartsWith p.path "//" = true then
    "//" ++ p.netloc ++
      (if p.path ≠ "" ∧ ¬pyStartsWith p.path "/" = true then "/" ++ p.path else p.path)
  else p.path

/-- CPython `urlunsplit`, step 2: re-attach the scheme. -/
def schemePart (p : ParsedUrl) : String :=
  if p.scheme ≠ "" then p.scheme ++ ":" ++ netlocPart p else netlocPart p

/-- CPython `urlunsplit`, step 3: re-attach the query. -/
def queryPart (p : ParsedUrl) : String :=
  if p.query ≠ "" then schemePart p ++ "?" ++ p.query else schemePart p

/-- Model of CPython `urllib.parse.urlunsplit` (= `geturl` on a parse
    result whose params component is empty). -/
def urlunsplit (p : ParsedUrl) : String :=
  if p.fragment ≠ "" then queryPart p ++ "#" ++ p.fragment else queryPart p

/-- Model of CPython `urllib.parse.urldefrag` (url part only): when the
    URL contains `#`, it is re-built from its parse with `fragment`
    dropped; otherwise it is returned unchanged. -/
def urldefrag (s : String) : String :=
  if '#' ∈ s.data then urlunsplit { urlparse s with fragment := "" } else s

/-! ## normalize_url and same_scope (src/digit.py lines 300-316) -/

/-- Embedding of `normalize_url(base, href)`.  `urllib.parse.urljoin` is
    passed in as `ujoin`: it belongs to the standard library and every
    property proved below holds for an arbitrary join function.  A missing
    `href` attribute (Python `None`) is modelled as `""`; both are falsy in
    `if not href`. -/
def normalize_url (ujoin : String → String → String) (base href : String) :
    Option String :=
  if href = "" then none
  else
    let absUrl := urldefrag (ujoin base href)
    let parsed := urlparse absUrl
    if parsed.scheme ≠ "http" ∧ parsed.scheme ≠ "https" then none
    else some (urlunsplit { parsed with netloc := strLower parsed.netloc })

/-- Embedding of `same_scope(seed, candidate)`. -/
def same_scope (seed candidate : String) : Bool :=
  let a := urlparse seed
  let b := urlparse candidate
  (a.scheme == b.scheme && a.netloc == b.netloc) && pyStartsWith b.path a.path

/-! ## Path resolver: slugify_path (src/digit.py lines 481-523) -/

/-- Python `str.rstrip("/")`-style stripping of one character. -/
def rstripChar (d : Char) (s : String) : String :=
  ⟨(s.data.reverse.dropWhile (· = d)).reverse⟩

/-- Python `str.strip("/")`-style stripping of one character, both ends. -/
def stripChar (d : Char) (s : String) : String :=
  ⟨((s.data.dropWhile (· = d)).reverse.dropWhile (· = d)).reverse⟩

/-- Characters the sanitization step keeps: `[a-zA-Z0-9/_-]`. -/
def isSlugChar (c : Char) : Bool :=
  c.isAlphanum || c == '/' || c == '_' || c == '-'

/-- Embedding of `slugify_path(base, root_url, page_url, lang_hint, format)`
    without the `base` directory (the caller joins `base / result`; the
    crawler model below prepends its output directory).  The `lang_hint`
    branch of the source mutates nothing and is omitted as the dead code
    it is. -/
def slugify_path (root_url page_url : String) (format : String) : String :=
  let a := urlparse root_url
  let b := urlparse page_url
  let path := b.path
  let path := if pyEndsWith path "/" then path ++ "index" else path
  let path := if path = "" then "index" else path
  let path := if pyEndsWith path ".html" then strDropRight path 5 else path
  let path :=
    if pyEndsWith path "/index" then
      let root_path := rstripChar '/' a.path
      let pwi := strDropRight path 6
      if pwi = root_path ∨ pwi = root_path ++ "/" then path
      else if pwi = "" ∨ pwi = "/" then "index" else pwi
    else path
  let safe := stripChar '/' ⟨path.data.map (fun c => if isSlugChar c then c else '-')⟩
  safe ++ (if format = "md" then ".md" else "." ++ format)

/-! ## Output writer: write_output (src/digit.py lines 526-567)

`hashlib.sha1(...).hexdigest()` is kept abstract: the diff-skip decision
depends only on equality of hash values, and every theorem below is
proved for an arbitrary hash function. -/

def hexDigit (n : Nat) : Char :=
  if n < 10 then Char.ofNat (48 + n) else Char.ofNat (87 + n)

/-- Escaping applied by `json.dumps` (ensure_ascii=False) to one string
    character. -/
def jsonEscapeChar (c : Char) : List Char :=
  if c = '"' then ['\\', '"']
  else if c = '\\' then ['\\', '\\']
  else if c = '\n' then ['\\', 'n']
  else if c = '\t' then ['\\', 't']
  else if c = '\r' then ['\\', 'r']
  else if c = '\x08' then ['\\', 'b']
  else if c = '\x0c' then ['\\', 'f']
  else if c.toNat < 32 then
    ['\\', 'u', '0', '0', hexDigit (c.toNat / 16), hexDigit (c.toNat % 16)]
  else [c]

def pyJsonStr (s : String) : String := ⟨s.data.flatMap jsonEscapeChar⟩

/-- The format-specific serialization `write_output` builds before the
    diff check (`final_content` in the source).  `now` is `int(time.time())`
    at the moment of the write. -/
def serializeOutput (format content title url htmlCleaned : String) (now : Nat) :
    String :=
  if format = "md" then
    "---\ntitle: " ++ pyReplace title ":" "-" ++ "\nurl: " ++ url ++
      "\ndate_scraped: " ++ natToStr now ++ "\n---\n" ++ content
  else if format = "json" then
    "\x7b\n  \"title\": \"" ++ pyJsonStr title ++ "\",\n  \"url\": \"" ++
      pyJsonStr url ++ "\",\n  \"date_scraped\": " ++ natToStr now ++
      ",\n  \"content\": \"" ++ pyJsonStr content ++ "\"\n\x7d"
  else if format = "txt" then content
  else if format = "html" then htmlCleaned
  else content

/-- Embedding of the write/skip decision of `write_output`: given the
    existing file contents (if any), returns whether a filesystem write is
    performed and the resulting file contents.  Reading the existing file
    is modelled as succeeding (the source treats a read failure as
    "changed" and writes). -/
def write_output (hash : String → String) (diff : Bool)
    (existing : Option String) (finalContent : String) : Bool × String :=
  match existing with
  | some e => if diff ∧ hash e = hash finalContent then (false, e) else (true, finalContent)
  | none => (true, finalContent)

/-! ## Robots policy (src/digit.py lines 319-328)

`load_robots` wraps `urllib.robotparser.RobotFileParser`; the parser's
state and its `read`/`can_fetch` methods are modelled from CPython
(`Lib/urllib/robotparser.py`): `read` catches only `HTTPError` (401/403
set `disallow_all`, other 4xx set `allow_all`, 5xx set nothing); any
other fetch exception propagates and is swallowed by `load_robots`'s
`except: pass`, leaving the parser in its initial state; `can_fetch`
returns `False` whenever the file was never successfully read
(`last_checked` unset) and neither flag is set.  A successfully parsed
rule set is abstracted as an allowance oracle for the fixed agent
"digit". -/

inductive RobotsFetch where
  /-- robots.txt was retrieved and parsed; `allow` is the resulting
      per-URL allowance for the "digit" agent. -/
  | ok (allow : String → Bool)
  /-- `urlopen` raised `HTTPError` with this status code. -/
  | httpError (code : Nat)
  /-- `urlopen` raised a non-HTTP error (DNS failure, refused
      connection, timeout, ...): the exception escapes `rp.read()`. -/
  | netError

structure RobotParserState where
  disallow_all : Bool
  allow_all : Bool
  last_checked : Bool
  rules : String → Bool

/-- Embedding of `load_robots(seed)` as a function of the outcome of
    fetching `<seed>/robots.txt`. -/
def load_robots (r : RobotsFetch) : RobotParserState :=
  match r with
  | .ok allow =>
    { disallow_all := false, allow_all := false, last_checked := true, rules := allow }
  | .httpError code =>
    if code = 401 ∨ code = 403 then
      { disallow_all := true, allow_all := false, last_checked := false,
        rules := fun _ => true }
    else if 400 ≤ code ∧ code < 500 then
      { disallow_all := false, allow_all := true, last_checked := false,
        rules := fun _ => true }
    else
      { disallow_all := false, allow_all := false, last_checked := false,
        rules := fun _ => true }
  | .netError =>
    { disallow_all := false, allow_all := false, last_checked := false,
      rules := fun _ => true }

/-- Model of `RobotFileParser.can_fetch("digit", url)` (CPython). -/
def can_fetch (st : RobotParserState) (url : String) : Bool :=
  if st.disallow_all then false
  else if st.allow_all then true
  else if !st.last_checked then false
  else st.rules url

/-! ## Content extractor: fenced code handling (src/digit.py lines 385-469)

The DOM juggling done with BeautifulSoup is modelled at the granularity
the fence pass works at: the selected main-content container is a list of
nodes, each either plain text or a `<pre>`(`<code>`) block carrying its
class list and its `get_text(" ")` text.  The generic `html2text`
conversion is an external library and is abstracted as a function from
the post-fence-pass node list to markdown; the regex post-processing
chain that follows it in the source is embedded concretely below. -/

def rstripWs (s : String) : String := ⟨(s.data.reverse.dropWhile isPySpace).reverse⟩

def lstripWs (s : String) : String := ⟨s.data.dropWhile isPySpace⟩

def stripWs (s : String) : String := rstripWs (lstripWs s)

/-- Split a character list at every `'\n'` (keeping a trailing empty
    piece, as `str.split` would). -/
def splitNlAux : List Char → List (List Char)
  | [] => [[]]
  | c :: rest =>
    if c = '\n' then [] :: splitNlAux rest
    else
      match splitNlAux rest with
      | l :: ls => (c :: l) :: ls
      | [] => [[c]]

/-- Python `str.splitlines` for `\n`-separated text: the piece after a
    terminating newline is not produced, and the empty string has no
    lines. -/
def pySplitlines (s : String) : List String :=
  if s.data = [] then []
  else
    let parts := (splitNlAux s.data).map (fun l => (⟨l⟩ : String))
    if s.data.getLast? = some '\n' then parts.dropLast else parts

/-- The bare language tokens recognized on a code block's class list. -/
def codeLangTokens : List String :=
  ["bash", "shell", "sh", "nix", "json", "yaml", "toml", "python", "js", "ts"]

def detectLangAux : String → List String → String
  | acc, [] => acc
  | acc, c :: rest =>
    if pyStartsWith c "language-" then strDrop c 9
    else if codeLangTokens.contains c then detectLangAux c rest
    else detectLangAux acc rest

/-- Language detection loop over the class list: a `language-X` class
    wins immediately (`break`); a bare token is remembered and the loop
    continues. -/
def detectLang (classes : List String) : String := detectLangAux "" classes

/-- `re.fullmatch(r"\s*\d{1,3}\s*", line)`: a decorative line number. -/
def isLineNumberLine (s : String) : Bool :=
  let t := s.data.dropWhile isPySpace
  let ds := t.takeWhile Char.isDigit
  let r := t.dropWhile Char.isDigit
  decide (1 ≤ ds.length ∧ ds.length ≤ 3) && r.all isPySpace

def btChar : Char := Char.ofNat 96

def glyphChars : List Char :=
  ['│', '└', '├', '┬', '─', '›', '>', '•', '·', btChar, '~', '\\', '/', '|', ':', '_', '-']

def isGlyphChar (c : Char) : Bool := isPySpace c || glyphChars.contains c

/-- `re.fullmatch(r"[\s│└├┬─›>•·`~\\/|:_-]+", line)`: a tree-drawing
    glyph line to be merged into the next line. -/
def isGlyphLine (s : String) : Bool := !s.isEmpty && s.data.all isGlyphChar

/-- The line-cleaning loop over the raw code text: drop line-number
    lines, merge glyph-only lines into the following line, rstrip each
    kept line. -/
def cleanCodeLines : List String → List String
  | [] => []
  | [l] =>
    let line := rstripWs l
    if isLineNumberLine line then [] else [line]
  | l :: next :: rest =>
    let line := rstripWs l
    if isLineNumberLine line then cleanCodeLines (next :: rest)
    else if isGlyphLine line then
      rstripWs (stripWs line ++ " " ++ lstripWs next) :: cleanCodeLines rest
    else line :: cleanCodeLines (next :: rest)

/-- Build one fenced block from a `<pre>`/`<code>` element's class list
    and text (source lines 396-438). -/
def fenceFor (classes : List String) (codeText : String) : String :=
  let lang := detectLang classes
  let cleaned := joinNl (cleanCodeLines (pySplitlines codeText))
  "\n\n```" ++ lang ++ "\n" ++ stripChar '\n' cleaned ++ "\n```\n\n"

/-- A node of the selected main-content container. -/
inductive HNode where
  | text (s : String)
  | preCode (classes : List String) (codeText : String)
deriving DecidableEq, Repr

/-- The fence pass: each `<pre>` block is replaced by a placeholder
    string node and the placeholder-to-fence map is accumulated in
    insertion order. -/
def fencePass : List HNode → Nat → List HNode × List (String × String)
  | [], _ => ([], [])
  | .text s :: rest, i =>
    let r := fencePass rest i
    (.text s :: r.1, r.2)
  | .preCode cls txt :: rest, i =>
    let ph := "WEB2SCRAP_FENCE_" ++ natToStr i
    let r := fencePass rest (i + 1)
    (.text ph :: r.1, (ph, fenceFor cls txt) :: r.2)

/-! The regex cleanup chain of `extract_main_content`, embedded as
concrete scanners (leftmost match, greediness and advance-by-one on
failure as in `re.sub`). -/

def isHexDigitB (c : Char) : Bool :=
  c.isDigit || (97 ≤ c.toNat && c.toNat ≤ 102) || (65 ≤ c.toNat && c.toNat ≤ 70)

/-- `re.sub(r"&#x[0-9a-fA-F]+;", "", markdown)`, fuelled: every step
    consumes at least one character, so fuel `length + 1` never runs out. -/
def removeIconAux : Nat → List Char → List Char
  | 0, cs => cs
  | fuel + 1, cs =>
    match cs with
    | [] => []
    | '&' :: '#' :: 'x' :: rest =>
      let hex := rest.takeWhile isHexDigitB
      let r2 := rest.drop hex.length
      if hex ≠ [] ∧ r2.head? = some ';' then removeIconAux fuel r2.tail
      else '&' :: removeIconAux fuel ('#' :: 'x' :: rest)
    | c :: rest => c :: removeIconAux fuel rest

def removeIconEntities (s : String) : String :=
  ⟨removeIconAux (s.data.length + 1) s.data⟩

/-- Find the closing `**` on the same line: returns the (lazy) inner
    text and the remainder after the closer. -/
def findBoldClose : List Char → Option (List Char × List Char)
  | [] => none
  | c :: rest =>
    if c = '\n' then none
    else if c = '*' ∧ rest.head? = some '*' then some ([], rest.tail)
    else
      match findBoldClose rest with
      | some (a, b) => some (c :: a, b)
      | none => none

/-- `re.sub(r"\*\*(.*?)\*\*", r"## \1", markdown)`, fuelled. -/
def boldAux : Nat → List Char → List Char
  | 0, cs => cs
  | fuel + 1, cs =>
    match cs with
    | [] => []
    | c :: rest =>
      if c = '*' ∧ rest.head? = some '*' then
        match findBoldClose rest.tail with
        | some (inner, after) => '#' :: '#' :: ' ' :: (inner ++ boldAux fuel after)
        | none => c :: boldAux fuel rest
      else c :: boldAux fuel rest

def boldToHeader (s : String) : String := ⟨boldAux (s.data.length + 1) s.data⟩

/-- `re.sub(r"(^|\n)(note\(|s\()", r"\1\n\n\2", markdown)`: the Bool
    argument tracks whether the scanner is at the string start or right
    after a newline. -/
def noteAux : Nat → Bool → List Char → List Char
  | 0, _, cs => cs
  | fuel + 1, atStart, cs =>
    match cs with
    | [] => []
    | 'n' :: 'o' :: 't' :: 'e' :: '(' :: rest =>
      if atStart then
        '\n' :: '\n' :: 'n' :: 'o' :: 't' :: 'e' :: '(' :: noteAux fuel false rest
      else 'n' :: noteAux fuel false ('o' :: 't' :: 'e' :: '(' :: rest)
    | 's' :: '(' :: rest =>
      if atStart then '\n' :: '\n' :: 's' :: '(' :: noteAux fuel false rest
      else 's' :: noteAux fuel false ('(' :: rest)
    | c :: rest => c :: noteAux fuel (c == '\n') rest

def noteBreaks (s : String) : String := ⟨noteAux (s.data.length + 1) true s.data⟩

/-- `for key, fenced in fence_map.items(): markdown.replace(key, fenced)`. -/
def restoreFences (m : List (String × String)) (md : String) : String :=
  m.foldl (fun acc kv => pyReplace acc kv.1 kv.2) md

def isLabelChar (c : Char) : Bool := c.isAlphanum || c == '_' || c == '+' || c == '-'

/-- `re.sub(r"\n([a-zA-Z0-9_+-]{2,})\n\n```", r"\n```\1\n", markdown)`,
    fuelled. -/
def langMergeAux : Nat → List Char → List Char
  | 0, cs => cs
  | fuel + 1, cs =>
    match cs with
    | [] => []
    | c :: rest =>
      if c = '\n' then
        let word := rest.takeWhile isLabelChar
        let r2 := rest.drop word.length
        if 2 ≤ word.length ∧ r2.take 5 = ['\n', '\n', btChar, btChar, btChar] then
          '\n' :: btChar :: btChar :: btChar ::
            (word ++ '\n' :: langMergeAux fuel (r2.drop 5))
        else '\n' :: langMergeAux fuel rest
      else c :: langMergeAux fuel rest

def langLabelMerge (s : String) : String := ⟨langMergeAux (s.data.length + 1) s.data⟩

/-- Position (from the front) of the last `'\n'` in a character list. -/
def lastNlPos : List Char → Option Nat
  | [] => none
  | c :: rest =>
    match lastNlPos rest with
    | some i => some (i + 1)
    | none => if c = '\n' then some 0 else none

/-- `\s*\n` with the one backtracking step the pattern needs: consume
    the maximal whitespace run up to and including its last newline. -/
def lastNlConsume (cs : List Char) : Option (List Char) :=
  match lastNlPos (cs.takeWhile isPySpace) with
  | some i => some (cs.drop (i + 1))
  | none => none

/-- One repetition unit `\s*\d+\s*\n` of the line-number-run pattern. -/
def matchNumUnit (cs : List Char) : Option (List Char) :=
  let r1 := cs.dropWhile isPySpace
  let ds := r1.takeWhile Char.isDigit
  if ds = [] then none
  else lastNlConsume (r1.drop ds.length)

/-- Greedy repetition of the unit, with fuel (each unit consumes at
    least one character, so `length + 1` fuel is never exhausted). -/
def runUnitsF : Nat → List Char → Nat × List Char
  | 0, cs => (0, cs)
  | fuel + 1, cs =>
    match matchNumUnit cs with
    | some r =>
      let p := runUnitsF fuel r
      (p.1 + 1, p.2)
    | none => (0, cs)

def runUnits (cs : List Char) : Nat × List Char := runUnitsF (cs.length + 1) cs

/-- `(?:\s*\d+\s*\n){3,}` anchored at the current position. -/
def tryRun (cs : List Char) : Option (List Char) :=
  let p := runUnits cs
  if 3 ≤ p.1 then some p.2 else none

/-- `re.sub(r"(?:^|\n)(?:\s*\d+\s*\n){3,}", "\n", markdown, flags=re.MULTILINE)`:
    the Bool tracks whether the scanner is at the string start or right
    after a newline (MULTILINE `^`). -/
def digitRunAux : Nat → Bool → List Char → List Char
  | 0, _, cs => cs
  | fuel + 1, atStart, cs =>
    match cs with
    | [] => []
    | c :: rest =>
      if atStart then
        match tryRun cs with
        | some rem => '\n' :: digitRunAux fuel true rem
        | none => c :: digitRunAux fuel (c == '\n') rest
      else if c = '\n' then
        match tryRun rest with
        | some rem => '\n' :: digitRunAux fuel true rem
        | none => '\n' :: digitRunAux fuel true rest
      else c :: digitRunAux fuel false rest

def digitRunStrip (s : String) : String :=
  ⟨digitRunAux (s.data.length + 1) true s.data⟩

/-- `re.sub(r"\n{3,}", "\n\n", markdown)`. -/
def collapseAux : Nat → List Char → List Char
  | 0, cs => cs
  | fuel + 1, cs =>
    match cs with
    | [] => []
    | '\n' :: '\n' :: '\n' :: rest =>
      '\n' :: '\n' :: collapseAux fuel (rest.dropWhile (· == '\n'))
    | c :: rest => c :: collapseAux fuel rest

def collapseBlank (s : String) : String := ⟨collapseAux (s.data.length + 1) s.data⟩

/-- The markdown production of `extract_main_content` from the selected
    container: fence pass, generic conversion (`h2t`, abstract), then the
    regex cleanup chain in source order (lines 444-469). -/
def extract_markdown (h2t : List HNode → String) (nodes : List HNode) : String :=
  let fp := fencePass nodes 0
  let md := h2t fp.1
  let md := removeIconEntities md
  let md := boldToHeader md
  let md := noteBreaks md
  let md := restoreFences fp.2 md
  let md := langLabelMerge md
  let md := digitRunStrip md
  collapseBlank md

/-! ## Per-seed dispatch of main (src/digit.py lines 726-770) -/

inductive SeedAction where
  /-- `crawl_sitemap_first` returned a positive count; it is reported. -/
  | sitemapUsed (count : Nat)
  /-- sitemap-only was requested and the sitemap path yielded nothing:
      the source prints "Exiting due to --sitemap-only" and `continue`s
      to the next seed. -/
  | skippedSitemapOnly
  /-- the Frontier Crawler is run over the seed. -/
  | frontierCrawl
deriving DecidableEq, Repr

/-- Embedding of the per-seed strategy choice in `main`:
    `sitemapCount` is what `crawl_sitemap_first` returns when invoked. -/
def seedDispatch (sitemapOnly hasInclude hasExclude : Bool)
    (sitemapCount : Nat) : SeedAction :=
  if sitemapOnly && !hasInclude && !hasExclude then
    if 0 < sitemapCount then .sitemapUsed sitemapCount
    else .skippedSitemapOnly
  else .frontierCrawl

/-! ## Frontier crawler (src/digit.py lines 574-648)

The crawl loop is embedded as a fuelled state machine.  The environment
bundles what the loop consumes from outside the repository: the network
(`fetch`, collapsing a request exception and a non-200/non-HTML response
into `none`, both of which `continue`), `urllib.parse.urljoin`
(`ujoin`), the SHA-1 hex digest (`hash`, abstract — only equality of
digests is ever used), the robots parser state produced by
`load_robots`, and the composition of `extract_main_content` with the
format serialization (`render`, abstract — the crawler claims do not
depend on its internals).  The state carries, besides the queue and the
two dedup sets of the source, observation logs: every URL issued as an
HTTP GET (`fetchLog`), every page accepted past the content-hash gate
(`acceptedBodies`, `attempts`), every filesystem write actually
performed (`writes`), and every URL appended by ENQUEUE-LINKS
(`enqueued`). -/

structure Page where
  body : String
  links : List String
deriving DecidableEq, Repr

structure Env where
  fetch : String → Option Page
  ujoin : String → String → String
  hash : String → String
  robots : RobotParserState
  render : String → String → String

structure Cfg where
  base : String
  outDir : String
  maxPages : Nat
  depthLimit : Nat
  includeRx : Option (String → Bool)
  excludeRx : Option (String → Bool)
  format : String
  diff : Bool

structure CrawlState where
  queue : List (String × Nat)
  seen : List String
  savedHashes : List String
  pages : Nat
  fs : List (String × String)
  fetchLog : List String
  attempts : List String
  writes : List String
  acceptedBodies : List String
  enqueued : List String
deriving DecidableEq, Repr

/-- File-system lookup (most recent write first). -/
def lookupFs : List (String × String) → String → Option String
  | [], _ => none
  | (q, c) :: rest, p => if q = p then some c else lookupFs rest p

/-- `include_rx and not include_rx.search(url)`. -/
def includeBlocks (rx : Option (String → Bool)) (url : String) : Bool :=
  match rx with
  | some p => !(p url)
  | none => false

/-- `exclude_rx and exclude_rx.search(url)`. -/
def excludeBlocks (rx : Option (String → Bool)) (url : String) : Bool :=
  match rx with
  | some p => p url
  | none => false

/-- ENQUEUE-LINKS: normalize each hyperlink target against the page URL
    and keep those in scope of the session base (source lines 640-645). -/
def extractLinks (env : Env) (base pageUrl : String) (hrefs : List String) :
    List String :=
  hrefs.filterMap fun href =>
    match normalize_url env.ujoin pageUrl href with
    | none => none
    | some nxt => if same_scope base nxt then some nxt else none

/-- The body of the loop after a successful fetch (source lines 622-645):
    content-hash dedup, extract, resolve, write, count, enqueue links. -/
def handleFetched (env : Env) (cfg : Cfg) (s : CrawlState) (url : String)
    (depth : Nat) (page : Page) : CrawlState :=
  if env.hash page.body ∈ s.savedHashes then s
  else
    let path := cfg.outDir ++ "/" ++ slugify_path cfg.base url cfg.format
    let w := write_output env.hash cfg.diff (lookupFs s.fs path) (env.render url page.body)
    let s2 : CrawlState :=
      { s with
        fs := if w.1 then (path, w.2) :: s.fs else s.fs
        attempts := s.attempts ++ [path]
        writes := if w.1 then s.writes ++ [path] else s.writes
        acceptedBodies := s.acceptedBodies ++ [page.body]
        savedHashes := env.hash page.body :: s.savedHashes
        pages := s.pages + 1 }
    if cfg.depthLimit = 0 ∨ depth < cfg.depthLimit then
      let ls := extractLinks env cfg.base url page.links
      { s2 with
        queue := s2.queue ++ ls.map (fun u => (u, depth + 1))
        enqueued := s2.enqueued ++ ls }
    else s2

/-- One iteration of the `while` body: DEQUEUE, visited check, POLICY
    CHECK, FETCH (source lines 601-620). -/
def processOne (env : Env) (cfg : Cfg) (s : CrawlState) : CrawlState :=
  match s.queue with
  | [] => s
  | (url, depth) :: rest =>
    let s1 := { s with queue := rest }
    if url ∈ s1.seen then s1
    else
      let s2 := { s1 with seen := url :: s1.seen }
      if !can_fetch env.robots url then s2
      else if includeBlocks cfg.includeRx url then s2
      else if excludeBlocks cfg.excludeRx url then s2
      else
        let s3 := { s2 with fetchLog := s2.fetchLog ++ [url] }
        match env.fetch url with
        | none => s3
        | some page => handleFetched env cfg s3 url depth page

/-- The `while queue and pages < max_pages` loop, fuelled. -/
def crawl (env : Env) (cfg : Cfg) : Nat → CrawlState → CrawlState
  | 0, s => s
  | fuel + 1, s =>
    if s.queue = [] ∨ cfg.maxPages ≤ s.pages then s
    else crawl env cfg fuel (processOne env cfg s)

/-- The session base: the seed with a trailing slash ensured on its path
    (source line 588). -/
def mkBase (seed : String) : String :=
  let p := urlparse seed
  p.scheme ++ "://" ++ p.netloc ++
    (if pyEndsWith p.path "/" then p.path else p.path ++ "/")

/-- Initial session state: frontier `[(base, 0)]`, empty Visited and
    Content-Hash sets; `fs0` is the pre-existing output directory
    contents (relevant to diff mode only). -/
def initState (base : String) (fs0 : List (String × String)) : CrawlState :=
  { queue := [(base, 0)], seen := [], savedHashes := [], pages := 0, fs := fs0,
    fetchLog := [], attempts := [], writes := [], acceptedBodies := [],
    enqueued := [] }

/-- Embedding of `crawl_with_frontier(seed, ...)`: build the base, run
    the loop. -/
def crawl_with_frontier (env : Env) (seed outDir : String)
    (maxPages depthLimit : Nat) (includeRx excludeRx : Option (String → Bool))
    (format : String) (diff : Bool) (fs0 : List (String × String))
    (fuel : Nat) : CrawlState :=
  crawl env
    { base := mkBase seed, outDir := outDir, maxPages := maxPages,
      depthLimit := depthLimit, includeRx := includeRx, excludeRx := excludeRx,
      format := format, diff := diff }
    fuel (initState (mkBase seed) fs0)

/-! ## Lemmas about lowercasing -/

theorem toNat_ofNat_small {n : Nat} (h : n < 55296) : (Char.ofNat n).toNat = n := by
  simp [Char.ofNat, Char.ofNatAux, Char.toNat, Nat.isValidChar, h, UInt32.toNat,
    BitVec.toNat_ofNat]

theorem isUpperAscii_lowerChar (c : Char) : isUpperAscii (lowerChar c) = false := by
  by_cases h : isUpperAscii c = true
  · have hc : 65 ≤ c.toNat ∧ c.toNat ≤ 90 := by
      simpa [isUpperAscii, Bool.and_eq_true, decide_eq_true_eq] using h
    have h32 : (Char.ofNat (c.toNat + 32)).toNat = c.toNat + 32 :=
      toNat_ofNat_small (by omega)
    unfold lowerChar
    rw [if_pos h]
    have hn : ¬(c.toNat + 32 ≤ 90) := by omega
    simp [isUpperAscii, h32, hn]
  · unfold lowerChar
    rw [if_neg h]
    simpa using h

theorem lowerChar_eq_hash {c : Char} (h : lowerChar c = '#') : c = '#' := by
  by_cases hu : isUpperAscii c = true
  · exfalso
    have hc : 65 ≤ c.toNat ∧ c.toNat ≤ 90 := by
      simpa [isUpperAscii, Bool.and_eq_true, decide_eq_true_eq] using hu
    have h32 : (Char.ofNat (c.toNat + 32)).toNat = c.toNat + 32 :=
      toNat_ofNat_small (by omega)
    rw [lowerChar, if_pos hu] at h
    have h35 : ('#' : Char).toNat = 35 := by decide
    have := congrArg Char.toNat h
    rw [h32, h35] at this
    omega
  · rwa [lowerChar, if_neg hu] at h

theorem strLower_no_upper (s : String) :
    ∀ c ∈ (strLower s).data, isUpperAscii c = false := by
  intro c hc
  obtain ⟨d, _, he⟩ := List.mem_map.mp hc
  exact he ▸ isUpperAscii_lowerChar d

theorem strLower_hashFree {s : String} (h : '#' ∉ s.data) :
    '#' ∉ (strLower s).data := by
  intro hmem
  obtain ⟨d, hd, he⟩ := List.mem_map.mp hmem
  exact h (lowerChar_eq_hash he ▸ hd)

/-! ## The parse components never contain `#` (except the fragment) -/

theorem validScheme_all {pre : List Char} (h : validScheme pre = true) :
    pre.all isSchemeChar = true := by
  cases pre with
  | nil => simp [validScheme] at h
  | cons c rest =>
    simp only [validScheme, Bool.and_eq_true] at h
    exact h.2

theorem parseScheme_fst_hashFree (cs : List Char) : '#' ∉ (parseScheme cs).1 := by
  unfold parseScheme
  cases hs : splitFirst ':' cs with
  | none => simp
  | some p =>
    obtain ⟨pre, post⟩ := p
    by_cases hv : validScheme pre = true
    · simp only [hv, if_true]
      intro hmem
      obtain ⟨d, hd, he⟩ := List.mem_map.mp hmem
      have hall := List.all_eq_true.mp (validScheme_all hv) d hd
      rw [lowerChar_eq_hash he] at hall
      simp [isSchemeChar] at hall
    · simp [hv]

theorem parseScheme_snd_subset (cs : List Char) :
    ∀ c ∈ (parseScheme cs).2, c ∈ cs := by
  unfold parseScheme
  cases hs : splitFirst ':' cs with
  | none => simp
  | some p =>
    obtain ⟨pre, post⟩ := p
    obtain ⟨hcs, _⟩ := splitFirst_eq_some hs
    by_cases hv : validScheme pre = true
    · simp only [hv, if_true]
      intro c hc
      rw [hcs]
      simp [hc]
    · simp [hv]

theorem parseNetloc_fst_hashFree (cs : List Char) : '#' ∉ (parseNetloc cs).1 := by
  unfold parseNetloc
  split
  · intro hmem
    have := List.mem_takeWhile_imp hmem
    simp [notNetlocDelim] at this
  · simp

theorem parseNetloc_snd_subset (cs : List Char) :
    ∀ c ∈ (parseNetloc cs).2, c ∈ cs := by
  unfold parseNetloc
  split
  · intro c hc
    exact List.drop_subset 2 cs ((List.dropWhile_sublist notNetlocDelim).subset hc)
  · simp

theorem splitFragment_fst_hashFree (cs : List Char) :
    '#' ∉ (splitFragment cs).1 := by
  unfold splitFragment
  cases hs : splitFirst '#' cs with
  | none => exact splitFirst_eq_none hs
  | some p =>
    obtain ⟨pre, post⟩ := p
    exact (splitFirst_eq_some hs).2

theorem splitFragment_snd_of_not_mem {cs : List Char} (h : '#' ∉ cs) :
    (splitFragment cs).2 = [] := by
  unfold splitFragment
  cases hs : splitFirst '#' cs with
  | none => rfl
  | some p =>
    obtain ⟨pre, post⟩ := p
    obtain ⟨hcs, _⟩ := splitFirst_eq_some hs
    exfalso
    exact h (hcs ▸ List.mem_append_right pre (List.mem_cons_self '#' post))

theorem splitQuery_fst_subset (cs : List Char) :
    ∀ c ∈ (splitQuery cs).1, c ∈ cs := by
  unfold splitQuery
  cases hs : splitFirst '?' cs with
  | none => simp
  | some p =>
    obtain ⟨pre, post⟩ := p
    obtain ⟨hcs, _⟩ := splitFirst_eq_some hs
    intro c hc
    rw [hcs]
    simp [hc]

theorem splitQuery_snd_subset (cs : List Char) :
    ∀ c ∈ (splitQuery cs).2, c ∈ cs := by
  unfold splitQuery
  cases hs : splitFirst '?' cs with
  | none => simp
  | some p =>
    obtain ⟨pre, post⟩ := p
    obtain ⟨hcs, _⟩ := splitFirst_eq_some hs
    intro c hc
    rw [hcs]
    simp [hc]

theorem urlparse_scheme_hashFree (s : String) : '#' ∉ (urlparse s).scheme.data :=
  parseScheme_fst_hashFree s.data

theorem urlparse_netloc_hashFree (s : String) : '#' ∉ (urlparse s).netloc.data :=
  parseNetloc_fst_hashFree (parseScheme s.data).2

theorem urlparse_path_hashFree (s : String) : '#' ∉ (urlparse s).path.data := by
  intro hmem
  have h1 := splitQuery_fst_subset (splitFragment (parseNetloc (parseScheme s.data).2).2).1 _ hmem
  exact splitFragment_fst_hashFree (parseNetloc (parseScheme s.data).2).2 h1

theorem urlparse_query_hashFree (s : String) : '#' ∉ (urlparse s).query.data := by
  intro hmem
  have h1 := splitQuery_snd_subset (splitFragment (parseNetloc (parseScheme s.data).2).2).1 _ hmem
  exact splitFragment_fst_hashFree (parseNetloc (parseScheme s.data).2).2 h1

theorem urlparse_fragment_empty {s : String} (h : '#' ∉ s.data) :
    (urlparse s).fragment = "" := by
  show (⟨(splitFragment (parseNetloc (parseScheme s.data).2).2).2⟩ : String) = ""
  rw [splitFragment_snd_of_not_mem]
  intro hmem
  exact h (parseScheme_snd_subset s.data '#' (parseNetloc_snd_subset _ '#' hmem))

/-! ## urlunsplit lemmas -/

theorem append_hashFree {a b : String} (ha : '#' ∉ a.data) (hb : '#' ∉ b.data) :
    '#' ∉ (a ++ b).data := by
  simp only [String.data_append, List.mem_append, not_or]
  exact ⟨ha, hb⟩

theorem ite_hashFree {c : Prop} [Decidable c] {a b : String} (ha : '#' ∉ a.data)
    (hb : '#' ∉ b.data) : '#' ∉ (if c then a else b).data := by
  split <;> assumption

theorem netlocPart_hashFree {p : ParsedUrl} (h2 : '#' ∉ p.netloc.data)
    (h3 : '#' ∉ p.path.data) : '#' ∉ (netlocPart p).data := by
  unfold netlocPart
  exact ite_hashFree
    (append_hashFree (append_hashFree (by decide) h2)
      (ite_hashFree (append_hashFree (by decide) h3) h3)) h3

theorem schemePart_hashFree {p : ParsedUrl} (h1 : '#' ∉ p.scheme.data)
    (h2 : '#' ∉ p.netloc.data) (h3 : '#' ∉ p.path.data) :
    '#' ∉ (schemePart p).data := by
  unfold schemePart
  exact ite_hashFree
    (append_hashFree (append_hashFree h1 (by decide)) (netlocPart_hashFree h2 h3))
    (netlocPart_hashFree h2 h3)

theorem urlunsplit_hashFree {p : ParsedUrl} (h1 : '#' ∉ p.scheme.data)
    (h2 : '#' ∉ p.netloc.data) (h3 : '#' ∉ p.path.data) (h4 : '#' ∉ p.query.data)
    (h5 : p.fragment = "") : '#' ∉ (urlunsplit p).data := by
  have hqp : '#' ∉ (queryPart p).data := by
    unfold queryPart
    exact ite_hashFree
      (append_hashFree (append_hashFree (schemePart_hashFree h1 h2 h3) (by decide)) h4)
      (schemePart_hashFree h1 h2 h3)
  unfold urlunsplit
  rw [if_neg (by simp [h5])]
  exact hqp

theorem urlunsplit_scheme_concat {p : ParsedUrl} (h : p.scheme ≠ "")
    (h5 : p.fragment = "") : ∃ t, urlunsplit p = p.scheme ++ ":" ++ t := by
  unfold urlunsplit queryPart schemePart
  rw [if_neg (by simp [h5])]
  split
  · exact ⟨netlocPart p ++ "?" ++ p.query, by simp [String.append_assoc]⟩
  · exact ⟨netlocPart p, rfl⟩

/-! ## What normalize_url guarantees about every URL it returns -/

/-- A URL in the normal form `normalize_url` produces: it is the
    reassembly of a parse whose scheme passed the http/https check and
    whose netloc was lowercased, it starts with `http:`/`https:`, its
    host part contains no uppercase ASCII letter, and its fragment is
    gone (no `#` anywhere). -/
def IsNormalizedUrl (u : String) : Prop :=
  (∃ p : ParsedUrl,
      (p.scheme = "http" ∨ p.scheme = "https") ∧ p.fragment = "" ∧
      (∀ c ∈ (strLower p.netloc).data, isUpperAscii c = false) ∧
      u = urlunsplit { p with netloc := strLower p.netloc }) ∧
  ((∃ t, u = "http:" ++ t) ∨ (∃ t, u = "https:" ++ t)) ∧
  '#' ∉ u.data

theorem urldefrag_hashFree (s : String) : '#' ∉ (urldefrag s).data := by
  unfold urldefrag
  split
  · exact urlunsplit_hashFree (urlparse_scheme_hashFree s)
      (urlparse_netloc_hashFree s) (urlparse_path_hashFree s)
      (urlparse_query_hashFree s) rfl
  · next hn => exact hn

theorem normalize_url_some_normalized {ujoin : String → String → String}
    {base href r : String} (h : normalize_url ujoin base href = some r) :
    IsNormalizedUrl r := by
  unfold normalize_url at h
  by_cases he : href = ""
  · simp [he] at h
  · simp only [if_neg he] at h
    set parsed := urlparse (urldefrag (ujoin base href)) with hparsed
    by_cases hs : parsed.scheme ≠ "http" ∧ parsed.scheme ≠ "https"
    · simp [hs] at h
    · simp only [if_neg hs, Option.some.injEq] at h
      have hsch : parsed.scheme = "http" ∨ parsed.scheme = "https" := by
        by_cases h1 : parsed.scheme = "http"
        · exact Or.inl h1
        · exact Or.inr (by tauto)
      have hfrag : parsed.fragment = "" := by
        rw [hparsed]
        exact urlparse_fragment_empty (urldefrag_hashFree (ujoin base href))
      refine ⟨⟨parsed, hsch, hfrag, strLower_no_upper parsed.netloc, h.symm⟩, ?_, ?_⟩
      · have hne : (({ parsed with netloc := strLower parsed.netloc } : ParsedUrl)).scheme ≠ "" := by
          show parsed.scheme ≠ ""
          rcases hsch with h1 | h1 <;> rw [h1] <;> decide
        have hfr : (({ parsed with netloc := strLower parsed.netloc } : ParsedUrl)).fragment = "" :=
          hfrag
        obtain ⟨t, ht⟩ := urlunsplit_scheme_concat hne hfr
        have hr : r = parsed.scheme ++ ":" ++ t := h.symm.trans ht
        rcases hsch with h1 | h1
        · refine Or.inl ⟨t, ?_⟩
          rw [hr, h1]
          rfl
        · refine Or.inr ⟨t, ?_⟩
          rw [hr, h1]
          rfl
      · rw [← h]
        apply urlunsplit_hashFree
        · show '#' ∉ parsed.scheme.data
          rcases hsch with h1 | h1 <;> rw [h1] <;> decide
        · exact strLower_hashFree (urlparse_netloc_hashFree _)
        · exact urlparse_path_hashFree _
        · exact urlparse_query_hashFree _
        · exact hfrag

/-! ## Crawl-loop invariants -/

theorem crawl_inv (env : Env) (cfg : Cfg) (P : CrawlState → Prop)
    (hstep : ∀ s, P s → P (processOne env cfg s)) :
    ∀ fuel s, P s → P (crawl env cfg fuel s) := by
  intro fuel
  induction fuel with
  | zero => intro s h; exact h
  | succ n ih =>
    intro s h
    unfold crawl
    split
    · exact h
    · exact ih _ (hstep s h)

theorem handleFetched_fetchLog (env : Env) (cfg : Cfg) (s : CrawlState)
    (url : String) (depth : Nat) (page : Page) :
    (handleFetched env cfg s url depth page).fetchLog = s.fetchLog := by
  simp only [handleFetched]
  split
  · rfl
  · split <;> rfl

theorem handleFetched_seen (env : Env) (cfg : Cfg) (s : CrawlState)
    (url : String) (depth : Nat) (page : Page) :
    (handleFetched env cfg s url depth page).seen = s.seen := by
  simp only [handleFetched]
  split
  · rfl
  · split <;> rfl

/-- C4's invariant: the fetch log has no duplicates and every fetched URL
    was marked visited. -/
def InvC4 (s : CrawlState) : Prop :=
  s.fetchLog.Nodup ∧ ∀ u ∈ s.fetchLog, u ∈ s.seen

theorem processOne_c4 (env : Env) (cfg : Cfg) (s : CrawlState) (h : InvC4 s) :
    InvC4 (processOne env cfg s) := by
  obtain ⟨hnd, hsub⟩ := h
  have hlog : ∀ url : String, url ∉ s.seen →
      (s.fetchLog ++ [url]).Nodup ∧
      ∀ u ∈ s.fetchLog ++ [url], u ∈ url :: s.seen := by
    intro url h1
    constructor
    · rw [List.nodup_append]
      refine ⟨hnd, List.nodup_singleton url, ?_⟩
      intro a ha hb
      simp only [List.mem_singleton] at hb
      subst hb
      exact h1 (hsub a ha)
    · intro u hu
      rcases List.mem_append.mp hu with h2 | h2
      · exact List.mem_cons_of_mem _ (hsub u h2)
      · simp only [List.mem_singleton] at h2
        subst h2
        exact List.mem_cons_self _ _
  simp only [processOne]
  split
  · exact ⟨hnd, hsub⟩
  · next url depth rest heq =>
    split
    · exact ⟨hnd, hsub⟩
    · next h1 =>
      split
      · exact ⟨hnd, fun u hu => List.mem_cons_of_mem _ (hsub u hu)⟩
      · split
        · exact ⟨hnd, fun u hu => List.mem_cons_of_mem _ (hsub u hu)⟩
        · split
          · exact ⟨hnd, fun u hu => List.mem_cons_of_mem _ (hsub u hu)⟩
          · split
            · exact hlog url h1
            · constructor
              · rw [handleFetched_fetchLog]
                exact (hlog url h1).1
              · intro u hu
                rw [handleFetched_fetchLog] at hu
                rw [handleFetched_seen]
                exact (hlog url h1).2 u hu

/-- C5's invariant: accepted bodies have pairwise distinct hashes, all of
    them recorded in the Content-Hash Set. -/
def InvC5 (env : Env) (s : CrawlState) : Prop :=
  List.Pairwise (fun a b => env.hash a ≠ env.hash b) s.acceptedBodies ∧
  ∀ b ∈ s.acceptedBodies, env.hash b ∈ s.savedHashes

theorem handleFetched_c5 (env : Env) (cfg : Cfg) (s : CrawlState)
    (url : String) (depth : Nat) (page : Page) (h : InvC5 env s) :
    InvC5 env (handleFetched env cfg s url depth page) := by
  obtain ⟨h1, h2⟩ := h
  simp only [handleFetched]
  split
  · exact ⟨h1, h2⟩
  · next hmem =>
    have key : List.Pairwise (fun a b => env.hash a ≠ env.hash b)
        (s.acceptedBodies ++ [page.body]) := by
      rw [List.pairwise_append]
      refine ⟨h1, List.pairwise_singleton _ _, ?_⟩
      intro a ha b hb
      simp only [List.mem_singleton] at hb
      subst hb
      intro heq
      exact hmem (heq ▸ h2 a ha)
    have key2 : ∀ b ∈ s.acceptedBodies ++ [page.body],
        env.hash b ∈ env.hash page.body :: s.savedHashes := by
      intro b hb
      rcases List.mem_append.mp hb with h3 | h3
      · exact List.mem_cons_of_mem _ (h2 b h3)
      · simp only [List.mem_singleton] at h3
        subst h3
        exact List.mem_cons_self _ _
    split
    · exact ⟨key, key2⟩
    · exact ⟨key, key2⟩

theorem processOne_c5 (env : Env) (cfg : Cfg) (s : CrawlState)
    (h : InvC5 env s) : InvC5 env (processOne env cfg s) := by
  simp only [processOne]
  split
  · exact h
  · split
    · exact h
    · split
      · exact h
      · split
        · exact h
        · split
          · exact h
          · split
            · exact h
            · exact handleFetched_c5 env cfg _ _ _ _ h

/-- C6 (amended): the written-page counter counts the pages accepted past
    the content-hash gate (one `write_output` call each), whether or not
    the diff check skipped the write. -/
def InvC6 (s : CrawlState) : Prop := s.pages = s.attempts.length

theorem processOne_c6 (env : Env) (cfg : Cfg) (s : CrawlState) (h : InvC6 s) :
    InvC6 (processOne env cfg s) := by
  simp only [processOne]
  split
  · exact h
  · split
    · exact h
    · split
      · exact h
      · split
        · exact h
        · split
          · exact h
          · split
            · exact h
            · simp only [handleFetched, InvC6]
              split
              · exact h
              · split
                · simp only [List.length_append, List.length_singleton]
                  unfold InvC6 at h
                  omega
                · simp only [List.length_append, List.length_singleton]
                  unfold InvC6 at h
                  omega

theorem extractLinks_mem {env : Env} {base pageUrl : String}
    {hrefs : List String} {u : String}
    (h : u ∈ extractLinks env base pageUrl hrefs) :
    (∃ href, normalize_url env.ujoin pageUrl href = some u) ∧
      same_scope base u = true := by
  unfold extractLinks at h
  obtain ⟨href, _, hf⟩ := List.mem_filterMap.mp h
  cases hn : normalize_url env.ujoin pageUrl href with
  | none => rw [hn] at hf; simp at hf
  | some nxt =>
    rw [hn] at hf
    by_cases hsc : same_scope base nxt = true
    · simp only [hsc, if_true, Option.some.injEq] at hf
      subst hf
      exact ⟨⟨href, hn⟩, hsc⟩
    · simp [hsc] at hf

theorem handleFetched_enqueued_sub (env : Env) (cfg : Cfg) (s : CrawlState)
    (url : String) (depth : Nat) (page : Page) :
    ∀ u ∈ (handleFetched env cfg s url depth page).enqueued,
      u ∈ s.enqueued ∨ u ∈ extractLinks env cfg.base url page.links := by
  simp only [handleFetched]
  split
  · intro u hu; exact Or.inl hu
  · split
    · intro u hu
      rcases List.mem_append.mp hu with h1 | h1
      · exact Or.inl h1
      · exact Or.inr h1
    · intro u hu; exact Or.inl hu

/-- C9/C10's invariant: every URL in the enqueue log came out of
    `normalize_url` and passed `same_scope` against the session base. -/
def InvEnq (env : Env) (cfg : Cfg) (s : CrawlState) : Prop :=
  ∀ u ∈ s.enqueued,
    (∃ pageUrl href, normalize_url env.ujoin pageUrl href = some u) ∧
      same_scope cfg.base u = true

theorem processOne_enq (env : Env) (cfg : Cfg) (s : CrawlState)
    (h : InvEnq env cfg s) : InvEnq env cfg (processOne env cfg s) := by
  simp only [processOne]
  split
  · exact h
  · next url depth rest heq =>
    split
    · exact h
    · split
      · exact h
      · split
        · exact h
        · split
          · exact h
          · split
            · exact h
            · intro u hu
              rcases handleFetched_enqueued_sub env cfg _ url depth _ u hu with h1 | h1
              · exact h u h1
              · obtain ⟨⟨href, hn⟩, hsc⟩ := extractLinks_mem h1
                exact ⟨⟨url, href, hn⟩, hsc⟩

theorem processOne_noFetch (env : Env) (cfg : Cfg) (s : CrawlState)
    (hrob : ∀ u, can_fetch env.robots u = false)
    (h : s.fetchLog = [] ∧ s.pages = 0) :
    (processOne env cfg s).fetchLog = [] ∧ (processOne env cfg s).pages = 0 := by
  simp only [processOne]
  split
  · exact h
  · next url depth rest heq =>
    split
    · exact h
    · split
      · exact h
      · next hcond =>
        exfalso
        rw [hrob url] at hcond
        simp at hcond

/-! ## Concrete sessions used by witnesses and counterexamples -/

/-- The document of C8: one `<pre><code class="language-python">` block
    whose text is the literal `foo\n  bar`. -/
def docC8 : List HNode := [HNode.preCode ["language-python"] "foo\n  bar"]

/-- The observed html2text behavior on the post-fence-pass container of
    `docC8`: the placeholder text followed by the converter's trailing
    blank line. -/
def h2tC8 : List HNode → String := fun _ => "WEB2SCRAP_FENCE_0\n\n"

/-- A one-page network for the diff-skip counterexample: the session base
    serves a body that renders to exactly what is already on disk. -/
def envC6 : Env :=
  { fetch := fun u => if u = "http://a/d/" then
      some { body := "BODY", links := [] } else none,
    ujoin := fun _ href => href,
    hash := fun s => s,
    robots := load_robots (RobotsFetch.ok (fun _ => true)),
    render := fun _ _ => "RENDERED" }

def cfgC6 : Cfg :=
  { base := "http://a/d/", outDir := "out", maxPages := 10, depthLimit := 0,
    includeRx := none, excludeRx := none, format := "md", diff := true }

def fs0C6 : List (String × String) := [("out/d/index.md", "RENDERED")]

/-- A network whose root page links to one in-scope page (for the
    enqueue-invariant witnesses). -/
def envC9 : Env :=
  { fetch := fun u => if u = "http://a/d/" then
      some { body := "ROOT", links := ["http://a/d/p1"] } else none,
    ujoin := fun _ href => href,
    hash := fun s => s,
    robots := load_robots (RobotsFetch.ok (fun _ => true)),
    render := fun _ _ => "R" }

/-! ## The claims -/

/-- C1, counterexample: with sitemap-first requested (no filters) and a
    sitemap path yielding nothing, `main` skips the seed ("Exiting due to
    --sitemap-only") instead of falling back to the Frontier Crawler. -/
theorem c1_counterexample :
    seedDispatch true false false 0 = SeedAction.skippedSitemapOnly ∧
    SeedAction.skippedSitemapOnly ≠ SeedAction.frontierCrawl :=
  ⟨rfl, by decide⟩

/-- C1 (amended): the Frontier Crawler runs exactly when sitemap-first
    was not requested or an include/exclude filter is set; with
    sitemap-first and no filters, a sitemap yielding nothing makes `main`
    skip the seed entirely, and a positive count reports the sitemap
    result. -/
theorem c1_sitemap_only_dispatch :
    (∀ (hasInclude hasExclude : Bool) (cnt : Nat),
        seedDispatch false hasInclude hasExclude cnt = SeedAction.frontierCrawl) ∧
    (∀ (hasInclude hasExclude : Bool) (cnt : Nat), hasInclude || hasExclude = true →
        seedDispatch true hasInclude hasExclude cnt = SeedAction.frontierCrawl) ∧
    seedDispatch true false false 0 = SeedAction.skippedSitemapOnly ∧
    (∀ cnt : Nat, 0 < cnt →
        seedDispatch true false false cnt = SeedAction.sitemapUsed cnt) := by
  refine ⟨fun i e cnt => rfl, ?_, rfl, ?_⟩
  · intro i e cnt hie
    cases i with
    | true => rfl
    | false =>
      cases e with
      | true => rfl
      | false => simp at hie
  · intro cnt hc
    cases cnt with
    | zero => omega
    | succ n => simp [seedDispatch]

/-- C2, counterexample: the resolver keeps the page URL's full path
    component, so the spec's example `slugify("https://x/docs/",
    "https://x/docs/guide/index.html")` yields `docs/guide`, not the
    scope-relative `guide`. -/
theorem c2_counterexample :
    slugify_path "https://x/docs/" "https://x/docs/guide/index.html" "md" =
      "docs/guide.md" ∧
    slugify_path "https://x/docs/" "https://x/docs/guide/index.html" "md" ≠
      "guide.md" := by
  exact ⟨by decide, by decide⟩

/-- C2 (amended): `slugify_path` resolves the page URL's full
    (site-root-relative) path component, with folder-index flattening;
    the spec's examples map to `docs/guide` and `docs/index` (the scope
    root's own index is preserved rather than flattened). -/
theorem c2_full_path_resolution :
    slugify_path "https://x/docs/" "https://x/docs/guide/index.html" "md" =
      "docs/guide.md" ∧
    slugify_path "https://x/docs/" "https://x/docs/index.html" "md" =
      "docs/index.md" := by
  exact ⟨by decide, by decide⟩

/-- C3, counterexample: the markdown serialization embeds the capture
    timestamp, so two runs over the same input at different epoch seconds
    write different bytes. -/
theorem c3_counterexample :
    serializeOutput "md" "body" "Title" "http://a/d/" "" 0 ≠
      serializeOutput "md" "body" "Title" "http://a/d/" "" 1 := by
  decide

/-- C3 (amended): the pipeline is idempotent whenever the serialization
    is time-independent (txt and html formats) or the two runs share the
    same capture timestamp: the serializations are byte-identical,
    without diff mode the second run overwrites with identical bytes, and
    with diff mode the second run performs no write. -/
theorem c3_idempotence_amended (hash : String → String)
    (format content title url htmlCleaned : String) (t1 t2 : Nat)
    (h : format = "txt" ∨ format = "html" ∨ t1 = t2) :
    serializeOutput format content title url htmlCleaned t1 =
      serializeOutput format content title url htmlCleaned t2 ∧
    write_output hash false
        (some (serializeOutput format content title url htmlCleaned t1))
        (serializeOutput format content title url htmlCleaned t2) =
      (true, serializeOutput format content title url htmlCleaned t1) ∧
    (write_output hash true
        (some (serializeOutput format content title url htmlCleaned t1))
        (serializeOutput format content title url htmlCleaned t2)).1 = false := by
  have heq : serializeOutput format content title url htmlCleaned t1 =
      serializeOutput format content title url htmlCleaned t2 := by
    rcases h with h | h | h
    · subst h; rfl
    · subst h; rfl
    · subst h; rfl
  refine ⟨heq, ?_, ?_⟩
  · rw [← heq]
    simp [write_output]
  · rw [← heq]
    simp [write_output]

/-- C3, witness: the amended idempotence at a concrete txt-format page. -/
theorem c3_witness :
    ("txt" = "txt" ∨ "txt" = "html" ∨ 5 = 9) ∧
    (serializeOutput "txt" "body" "t" "u" "h" 5 =
        serializeOutput "txt" "body" "t" "u" "h" 9 ∧
     write_output (fun s => s) false
        (some (serializeOutput "txt" "body" "t" "u" "h" 5))
        (serializeOutput "txt" "body" "t" "u" "h" 9) =
      (true, serializeOutput "txt" "body" "t" "u" "h" 5) ∧
     (write_output (fun s => s) true
        (some (serializeOutput "txt" "body" "t" "u" "h" 5))
        (serializeOutput "txt" "body" "t" "u" "h" 9)).1 = false) :=
  ⟨Or.inl rfl,
    c3_idempotence_amended (fun s => s) "txt" "body" "t" "u" "h" 5 9 (Or.inl rfl)⟩

/-- C4: in every frontier-crawl session no URL is issued as an HTTP GET
    twice — the fetch log is duplicate-free — and every fetched URL was
    put in the Visited Set (before its fetch, as the step function
    shows). -/
theorem c4_no_url_fetched_twice (env : Env) (seed outDir : String)
    (maxPages depthLimit : Nat) (includeRx excludeRx : Option (String → Bool))
    (format : String) (diff : Bool) (fs0 : List (String × String)) (fuel : Nat) :
    (crawl_with_frontier env seed outDir maxPages depthLimit includeRx excludeRx
        format diff fs0 fuel).fetchLog.Nodup ∧
    ∀ u ∈ (crawl_with_frontier env seed outDir maxPages depthLimit includeRx
        excludeRx format diff fs0 fuel).fetchLog,
      u ∈ (crawl_with_frontier env seed outDir maxPages depthLimit includeRx
        excludeRx format diff fs0 fuel).seen :=
  crawl_inv env _ InvC4 (processOne_c4 env _) fuel (initState (mkBase seed) fs0)
    ⟨List.nodup_nil, fun u hu => absurd hu (List.not_mem_nil u)⟩

/-- C5: in every frontier-crawl session the bodies accepted for writing
    have pairwise distinct content hashes — a body whose hash is already
    in the Content-Hash Set is dropped. -/
theorem c5_content_hash_dedup (env : Env) (seed outDir : String)
    (maxPages depthLimit : Nat) (includeRx excludeRx : Option (String → Bool))
    (format : String) (diff : Bool) (fs0 : List (String × String)) (fuel : Nat) :
    List.Pairwise (fun a b => env.hash a ≠ env.hash b)
      (crawl_with_frontier env seed outDir maxPages depthLimit includeRx excludeRx
        format diff fs0 fuel).acceptedBodies :=
  (crawl_inv env _ (InvC5 env) (processOne_c5 env _) fuel
    (initState (mkBase seed) fs0)
    ⟨List.Pairwise.nil, fun b hb => absurd hb (List.not_mem_nil b)⟩).1

/-- C6, counterexample: a diff-mode session whose only page's write is
    skipped (the on-disk file already matches) still increments the
    written-page counter: pages = 1 with zero performed writes. -/
theorem c6_counterexample :
    (crawl envC6 cfgC6 2 (initState "http://a/d/" fs0C6)).pages = 1 ∧
    (crawl envC6 cfgC6 2 (initState "http://a/d/" fs0C6)).writes = [] ∧
    (crawl envC6 cfgC6 2 (initState "http://a/d/" fs0C6)).pages ≠
      (crawl envC6 cfgC6 2 (initState "http://a/d/" fs0C6)).writes.length := by
  exact ⟨by decide, by decide, by decide⟩

/-- C6 (amended): the counter counts every page accepted past the
    content-hash gate — one `write_output` call each — regardless of
    whether diff mode skipped the actual filesystem write. -/
theorem c6_pages_counts_accepted (env : Env) (seed outDir : String)
    (maxPages depthLimit : Nat) (includeRx excludeRx : Option (String → Bool))
    (format : String) (diff : Bool) (fs0 : List (String × String)) (fuel : Nat) :
    (crawl_with_frontier env seed outDir maxPages depthLimit includeRx excludeRx
        format diff fs0 fuel).pages =
    (crawl_with_frontier env seed outDir maxPages depthLimit includeRx excludeRx
        format diff fs0 fuel).attempts.length :=
  crawl_inv env _ InvC6 (processOne_c6 env _) fuel (initState (mkBase seed) fs0) rfl

/-- C7: when robots.txt cannot be retrieved because the fetch raises a
    non-HTTP error, the parser `load_robots` returns is in its initial
    state and CPython's `can_fetch` then denies every URL — so the
    session fetches nothing, the opposite of the documented "default to
    permissive". -/
theorem c7_robots_unreachable_blocks_all :
    (∀ url, can_fetch (load_robots RobotsFetch.netError) url = false) ∧
    ∀ (env : Env) (seed outDir : String) (maxPages depthLimit : Nat)
      (includeRx excludeRx : Option (String → Bool)) (format : String)
      (diff : Bool) (fs0 : List (String × String)) (fuel : Nat),
      (∀ url, can_fetch env.robots url = false) →
      (crawl_with_frontier env seed outDir maxPages depthLimit includeRx excludeRx
          format diff fs0 fuel).fetchLog = [] ∧
      (crawl_with_frontier env seed outDir maxPages depthLimit includeRx excludeRx
          format diff fs0 fuel).pages = 0 := by
  constructor
  · intro url; rfl
  · intro env seed outDir maxPages depthLimit includeRx excludeRx format diff fs0
      fuel hrob
    exact crawl_inv env _ (fun s => s.fetchLog = [] ∧ s.pages = 0)
      (fun s h => processOne_noFetch env _ s hrob h) fuel
      (initState (mkBase seed) fs0) ⟨rfl, rfl⟩

/-- C8: for a `pre`/`code` block classed `language-python` with literal
    text `foo\n  bar`, the extractor's markdown is exactly the fenced
    block tagged `python` with body lines `foo` and `  bar`, restored
    byte-for-byte through the placeholder mechanism (stated for any
    generic converter producing the placeholder paragraph html2text
    produces here). -/
theorem c8_fenced_code_roundtrip (h2t : List HNode → String)
    (hh : h2t [HNode.text "WEB2SCRAP_FENCE_0"] = "WEB2SCRAP_FENCE_0\n\n") :
    extract_markdown h2t docC8 = "\n\n```python\nfoo\n  bar\n```\n\n" ∧
    ∃ before after, extract_markdown h2t docC8 =
      before ++ "```python\nfoo\n  bar\n```" ++ after := by
  have h1 : extract_markdown h2t docC8 =
      collapseBlank (digitRunStrip (langLabelMerge (restoreFences
        (fencePass docC8 0).2
        (noteBreaks (boldToHeader (removeIconEntities
          (h2t (fencePass docC8 0).1))))))) := rfl
  have h2 : (fencePass docC8 0).1 = [HNode.text "WEB2SCRAP_FENCE_0"] := by decide
  rw [h1, h2, hh]
  constructor
  · decide
  · exact ⟨"\n\n", "\n\n", by decide⟩

/-- C8, witness: the round-trip at the concrete converter `h2tC8`. -/
theorem c8_witness :
    h2tC8 [HNode.text "WEB2SCRAP_FENCE_0"] = "WEB2SCRAP_FENCE_0\n\n" ∧
    (extract_markdown h2tC8 docC8 = "\n\n```python\nfoo\n  bar\n```\n\n" ∧
     ∃ before after, extract_markdown h2tC8 docC8 =
       before ++ "```python\nfoo\n  bar\n```" ++ after) :=
  ⟨rfl, c8_fenced_code_roundtrip h2tC8 rfl⟩

/-- C9: every URL the frontier crawler enqueues during link extraction
    shares scheme and netloc with the session's scope root and its path
    starts with the root's path. -/
theorem c9_enqueued_in_scope (env : Env) (seed outDir : String)
    (maxPages depthLimit : Nat) (includeRx excludeRx : Option (String → Bool))
    (format : String) (diff : Bool) (fs0 : List (String × String)) (fuel : Nat)
    (u : String)
    (hu : u ∈ (crawl_with_frontier env seed outDir maxPages depthLimit includeRx
        excludeRx format diff fs0 fuel).enqueued) :
    (urlparse u).scheme = (urlparse (mkBase seed)).scheme ∧
    (urlparse u).netloc = (urlparse (mkBase seed)).netloc ∧
    pyStartsWith (urlparse u).path (urlparse (mkBase seed)).path = true := by
  have hinv := crawl_inv env
    { base := mkBase seed, outDir := outDir, maxPages := maxPages,
      depthLimit := depthLimit, includeRx := includeRx, excludeRx := excludeRx,
      format := format, diff := diff }
    (InvEnq env
      { base := mkBase seed, outDir := outDir, maxPages := maxPages,
        depthLimit := depthLimit, includeRx := includeRx, excludeRx := excludeRx,
        format := format, diff := diff })
    (processOne_enq env _) fuel (initState (mkBase seed) fs0)
    (fun v hv => absurd hv (List.not_mem_nil v))
  obtain ⟨-, hsc⟩ := hinv u hu
  unfold same_scope at hsc
  simp only [Bool.and_eq_true, beq_iff_eq] at hsc
  exact ⟨hsc.1.1.symm, hsc.1.2.symm, hsc.2⟩

/-- C9, witness: the in-scope link of `envC9`'s root page is enqueued and
    satisfies the scope conditions. -/
theorem c9_witness :
    ("http://a/d/p1" ∈ (crawl_with_frontier envC9 "http://a/d/" "out" 10 0 none
        none "md" false [] 3).enqueued) ∧
    ((urlparse "http://a/d/p1").scheme = (urlparse (mkBase "http://a/d/")).scheme ∧
     (urlparse "http://a/d/p1").netloc = (urlparse (mkBase "http://a/d/")).netloc ∧
     pyStartsWith (urlparse "http://a/d/p1").path
       (urlparse (mkBase "http://a/d/")).path = true) := by
  have henq : (crawl_with_frontier envC9 "http://a/d/" "out" 10 0 none none "md"
      false [] 3).enqueued = ["http://a/d/p1"] := by decide
  have hmem : "http://a/d/p1" ∈ (crawl_with_frontier envC9 "http://a/d/" "out" 10 0
      none none "md" false [] 3).enqueued := by
    rw [henq]
    exact List.mem_singleton.mpr rfl
  exact ⟨hmem, c9_enqueued_in_scope envC9 "http://a/d/" "out" 10 0 none none "md"
    false [] 3 "http://a/d/p1" hmem⟩

/-- C10: every URL the crawler enqueues is normalized — scheme http or
    https, fragment removed, host lowercased; an empty href is never
    enqueued, and neither is one whose joined URL has any other scheme
    (mailto, javascript, ftp, ...), for any join function. -/
theorem c10_enqueued_normalized :
    (∀ (env : Env) (seed outDir : String) (maxPages depthLimit : Nat)
        (includeRx excludeRx : Option (String → Bool)) (format : String)
        (diff : Bool) (fs0 : List (String × String)) (fuel : Nat) (u : String),
      u ∈ (crawl_with_frontier env seed outDir maxPages depthLimit includeRx
          excludeRx format diff fs0 fuel).enqueued → IsNormalizedUrl u) ∧
    (∀ (ujoin : String → String → String) (base : String),
      normalize_url ujoin base "" = none) ∧
    (∀ (ujoin : String → String → String) (base href : String),
      (urlparse (urldefrag (ujoin base href))).scheme ≠ "http" →
      (urlparse (urldefrag (ujoin base href))).scheme ≠ "https" →
      normalize_url ujoin base href = none) := by
  refine ⟨?_, fun ujoin base => rfl, ?_⟩
  · intro env seed outDir maxPages depthLimit includeRx excludeRx format diff fs0
      fuel u hu
    have hinv := crawl_inv env
      { base := mkBase seed, outDir := outDir, maxPages := maxPages,
        depthLimit := depthLimit, includeRx := includeRx, excludeRx := excludeRx,
        format := format, diff := diff }
      (InvEnq env
        { base := mkBase seed, outDir := outDir, maxPages := maxPages,
          depthLimit := depthLimit, includeRx := includeRx, excludeRx := excludeRx,
          format := format, diff := diff })
      (processOne_enq env _) fuel (initState (mkBase seed) fs0)
      (fun v hv => absurd hv (List.not_mem_nil v))
    obtain ⟨⟨pageUrl, href, hn⟩, -⟩ := hinv u hu
    exact normalize_url_some_normalized hn
  · intro ujoin base href h1 h2
    by_cases he : href = ""
    · simp [normalize_url, he]
    · simp only [normalize_url, if_neg he]
      rw [if_pos ⟨h1, h2⟩]

/-- C10, witness: the enqueued link of `envC9`'s session is in normal
    form, an empty href is dropped, and a mailto href is dropped (with
    the identity as the join function, `mailto:x@y` resolves to itself). -/
theorem c10_witness :
    IsNormalizedUrl "http://a/d/p1" ∧
    normalize_url (fun _ href => href) "http://a/d/" "" = none ∧
    normalize_url (fun _ href => href) "http://a/d/" "mailto:x@y" = none := by
  have henq : (crawl_with_frontier envC9 "http://a/d/" "out" 10 0 none none "md"
      false [] 3).enqueued = ["http://a/d/p1"] := by decide
  refine ⟨?_, ?_, ?_⟩
  · exact c10_enqueued_normalized.1 envC9 "http://a/d/" "out" 10 0 none none "md"
      false [] 3 "http://a/d/p1" (by rw [henq]; exact List.mem_singleton.mpr rfl)
  · exact c10_enqueued_normalized.2.1 (fun _ href => href) "http://a/d/"
  · exact c10_enqueued_normalized.2.2 (fun _ href => href) "http://a/d/"
      "mailto:x@y" (by decide) (by decide)

end Digit
